import Mathlib

/-!
Verification of the hgfind gene-name resolver (`src/hgfind/hgfind.py`).

The embedding below translates the pure core of the module: the
`Chromosome` value class, the BioMart table ingestion `file_to_dicts`
(alias resolution and coordinate aggregation), and the `hgfind` lookup.
File/Cache I/O and the CLI are out of scope; ingestion operates on a
list of already-split 7-field rows (one per data line of the table).

Python strings are modelled by Lean `String`; `str.upper()`/`str.strip()`
are modelled on the ASCII range (the only range the gene tables use).
Python exceptions (`ValueError` from `int()` / `Chromosome.__init__`,
`IndexError` from string indexing) are modelled by `Except PyErr`; an
error aborts ingestion exactly as an uncaught exception does.
Dictionaries are modelled as functions `String → Option α`, with
`insert` overriding pointwise, which matches Python `dict` get/set
semantics (iteration order is irrelevant to the modelled code: the
finalization loop rewrites each key pointwise).
-/

namespace HgfindModel

/-- Python exceptions that the modelled code can raise. -/
inductive PyErr where
  | valueError
  | indexError
deriving DecidableEq

/-- Model of `str.upper()` on one character, ASCII range (codepoints 97-122 map down by 32). -/
def pyCharUpper (c : Char) : Char :=
  if 97 ≤ c.toNat ∧ c.toNat ≤ 122 then Char.ofNat (c.toNat - 32) else c

/-- Model of `str.upper()` (ASCII fragment). -/
def pyUpper (s : String) : String := ⟨s.data.map pyCharUpper⟩

/-- Model of `str.strip()`: drop whitespace from both ends. -/
def pyStrip (s : String) : String :=
  ⟨((s.data.dropWhile Char.isWhitespace).reverse.dropWhile Char.isWhitespace).reverse⟩

/-- Value of a nonempty all-digit character run (helper for `pyInt`). -/
def digitsVal (l : List Char) : Nat := l.foldl (fun a c => a * 10 + (c.toNat - 48)) 0

/-- Python `int(s)` on a string: strips whitespace, accepts an optional
sign followed by a nonempty digit run; `none` models `ValueError`. -/
def pyInt (s : String) : Option Int :=
  match (pyStrip s).data with
  | [] => none
  | '-' :: rest =>
    if rest ≠ [] ∧ rest.all Char.isDigit then some (-(digitsVal rest : Int)) else none
  | '+' :: rest =>
    if rest ≠ [] ∧ rest.all Char.isDigit then some (digitsVal rest) else none
  | l => if l.all Char.isDigit then some (digitsVal l) else none

/-- Leftmost index of `pat` in `l` (Python `str.find`), `none` when absent. -/
def findSubIdx (pat : List Char) : List Char → Option Nat
  | [] => if pat.isPrefixOf ([] : List Char) then some 0 else none
  | c :: rest =>
    if pat.isPrefixOf (c :: rest) then some 0
    else (findSubIdx pat rest).map (· + 1)

/-- Index given by `s.upper().find("HSCHR")` as an `Option`: index of the scaffold marker. -/
def hschrIdx (s : String) : Option Nat := findSubIdx "HSCHR".data (pyUpper s).data

/-- The `Chromosome` class: an autosome 1-22, X (23), Y (24) or M/MT (25),
identified by its numeric rank `chr_n`. -/
structure Chromosome where
  chr_n : Nat
deriving DecidableEq

/-- The `Union[int, str]` argument accepted by `Chromosome.__init__`. -/
inductive PyVal where
  | int (n : Int)
  | str (s : String)

/-- Constructor `Chromosome.__init__`: int 1-22, case-insensitive "X"/"Y"/"MT"/"M",
or a numeric string in 1-22; anything else raises `ValueError`. -/
def Chromosome.init : PyVal → Except PyErr Chromosome
  | .int n => if 1 ≤ n ∧ n ≤ 22 then .ok ⟨n.toNat⟩ else .error .valueError
  | .str s =>
    let u := pyUpper s
    if u = "X" ∨ u = "Y" ∨ u = "MT" ∨ u = "M" then
      .ok ⟨if u = "X" then 23 else if u = "Y" then 24 else 25⟩
    else
      match pyInt s with
      | some n => if 1 ≤ n ∧ n ≤ 22 then .ok ⟨n.toNat⟩ else .error .valueError
      | none => .error .valueError

/-- Method `Chromosome.__str__`: "1".."22", "X", "Y" or "M". -/
def Chromosome.str (c : Chromosome) : String :=
  if c.chr_n ≤ 22 then toString c.chr_n
  else if c.chr_n = 23 then "X"
  else if c.chr_n = 24 then "Y"
  else "M"

/-- Method `Chromosome.__eq__` against a raw string: `str(self) == other`. -/
def Chromosome.eqStr (c : Chromosome) (s : String) : Bool := c.str == s

/-- Method `Chromosome.__eq__` against a raw int: `self.chr_n == other`. -/
def Chromosome.eqInt (c : Chromosome) (n : Int) : Bool := (c.chr_n : Int) == n

/-- A Python dict with string keys, as a point function. -/
abbrev PMap (α : Type) : Type := String → Option α

/-- The empty dict. -/
def PMap.empty {α : Type} : PMap α := fun _ => none

/-- Assignment `d[k] = v`. -/
def PMap.insert {α : Type} (m : PMap α) (k : String) (v : α) : PMap α :=
  fun q => if q = k then some v else m q

/-- Transient `official_to_coord` entry during ingestion:
(chromosome, list of row starts, list of row ends). -/
abbrev TransientEntry : Type := Chromosome × List Int × List Int

/-- One parsed, non-skipped table row (the per-row "fact"). -/
structure Fact where
  gene_name : String
  names : List String
  chr_no : Chromosome
  start_coord : Int
  end_coord : Int

/-- The chromosome-label dispatch of `file_to_dicts` (lines 193-223):
exact "X"/"Y"/"MT"; else labels of length ≤ 2 parsed as ints; else the
HSCHR scaffold heuristic; else skip the row (`.ok none`). -/
def parseChrLabel (lab : String) : Except PyErr (Option Chromosome) :=
  if lab = "X" ∨ lab = "Y" ∨ lab = "MT" then
    (Chromosome.init (.str lab)).map some
  else if lab.length ≤ 2 then
    match pyInt lab with
    | none => .error .valueError
    | some n => (Chromosome.init (.int n)).map some
  else
    match hschrIdx lab with
    | none => .ok none
    | some i =>
      -- str_chr_no = str_chr_no[i : i + 7]; then str_chr_no[5:]
      let w := (lab.data.drop i).take 7
      let r := w.drop 5
      -- str_chr_no[1].isdigit() ; IndexError when the remainder is shorter
      match r.get? 1 with
      | none => .error .indexError
      | some c1 =>
        if c1.isDigit then
          match pyInt ⟨r⟩ with
          | none => .error .valueError
          | some n => (Chromosome.init (.int n)).map some
        else
          match r.get? 0 with
          | none => .error .indexError
          | some c0 =>
            if c0 = 'X' ∨ c0 = 'Y' then
              (Chromosome.init (.str ⟨[c0]⟩)).map some
            else if (⟨r⟩ : String) = "MT" then
              (Chromosome.init (.str "MT")).map some
            else
              match pyInt ⟨[c0]⟩ with
              | none => .error .valueError
              | some n => (Chromosome.init (.int n)).map some

/-- The 7 tab-separated fields of one data line of the BioMart table. -/
structure RawRow where
  start_coord : String
  end_coord : String
  gene_name : String
  gene_syn_name : String
  wiki_name : String
  uniprot_name : String
  str_chr_no : String

/-- Candidate-name list of a row (line 187-191): the four stripped name
fields with the empty ones dropped, order preserved. -/
def rowNames (row : RawRow) : List String :=
  [pyStrip row.gene_name, pyStrip row.gene_syn_name,
   pyStrip row.wiki_name, pyStrip row.uniprot_name].filter (· ≠ "")

/-- Per-line parsing of `file_to_dicts` (lines 177-226): strip the 7
fields, collect the nonempty names (a pure computation, done before the
label dispatch in the source), dispatch on the chromosome label
(skipping before the coordinates are touched), then `int()` the
start/end coordinates. -/
def parseRow (row : RawRow) : Except PyErr (Option Fact) :=
  match parseChrLabel (pyStrip row.str_chr_no) with
  | .error e => .error e
  | .ok none => .ok none
  | .ok (some chr_no) =>
    match pyInt (pyStrip row.start_coord), pyInt (pyStrip row.end_coord) with
    | some sc, some ec => .ok (some ⟨pyStrip row.gene_name, rowNames row, chr_no, sc, ec⟩)
    | _, _ => .error .valueError

/-- The body of the per-name alias loop (lines 233-250). State is
(`name_to_official`, running `official_name`); `official_to_coord` is
only read during the loop. -/
def processName (chr_no : Chromosome) (official_to_coord : PMap TransientEntry)
    (st : PMap String × String) (name : String) : PMap String × String :=
  let (name_to_official, official_name) := st
  match name_to_official name with
  | some c =>
    match official_to_coord c with
    | none => (name_to_official, c)
    | some (prev_chr_no, _, _) =>
      if prev_chr_no ≠ chr_no then (name_to_official.insert name name, name)
      else (name_to_official, c)
  | none => (name_to_official.insert name official_name, official_name)

/-- The whole alias loop of one fact: initial guess
`name_to_official.get(gene_name, gene_name)` (line 231), then the loop
over `names`; returns the updated map and the final `official_name`. -/
def resolveFact (name_to_official : PMap String) (official_to_coord : PMap TransientEntry)
    (f : Fact) : PMap String × String :=
  f.names.foldl (processName f.chr_no official_to_coord)
    (name_to_official, (name_to_official f.gene_name).getD f.gene_name)

/-- Coordinate aggregation for one fact (lines 252-271): default entry
`(-1, [], [])` is the `none` case; an existing entry on a different
chromosome discards the row, otherwise the row's coordinates are
appended. -/
def aggregate (official_to_coord : PMap TransientEntry) (official_name : String)
    (chr_no : Chromosome) (start_coord end_coord : Int) : PMap TransientEntry :=
  match official_to_coord official_name with
  | none => official_to_coord.insert official_name (chr_no, [start_coord], [end_coord])
  | some (prev_chr_no, prev_start_coord, prev_end_coord) =>
    if prev_chr_no ≠ chr_no then official_to_coord
    else official_to_coord.insert official_name
      (chr_no, prev_start_coord ++ [start_coord], prev_end_coord ++ [end_coord])

/-- Process one fact: alias resolution followed by aggregation. -/
def processFact (st : PMap String × PMap TransientEntry) (f : Fact) :
    PMap String × PMap TransientEntry :=
  let (a, off) := resolveFact st.1 st.2 f
  (a, aggregate st.2 off f.chr_no f.start_coord f.end_coord)

/-- The row loop of `file_to_dicts` (lines 175-273): skipped rows leave
the state unchanged, exceptions abort the whole ingestion. -/
def ingestFrom (st : PMap String × PMap TransientEntry) :
    List RawRow → Except PyErr (PMap String × PMap TransientEntry)
  | [] => .ok st
  | row :: rest =>
    match parseRow row with
    | .error e => .error e
    | .ok none => ingestFrom st rest
    | .ok (some f) => ingestFrom (processFact st f) rest

/-- Ingestion of a whole table from the empty dicts. -/
def ingest (rows : List RawRow) : Except PyErr (PMap String × PMap TransientEntry) :=
  ingestFrom (PMap.empty, PMap.empty) rows

/-- Minimum of a coordinate list (Python `min`; entries are nonempty by
construction, the `[]` value is never reached by the pipeline). -/
def listMin : List Int → Int
  | [] => 0
  | x :: xs => xs.foldl min x

/-- Maximum of a coordinate list (Python `max`). -/
def listMax : List Int → Int
  | [] => 0
  | x :: xs => xs.foldl max x

/-- Finalization loop (lines 279-285): every transient entry collapses
to (chromosome, min of starts, max of ends). -/
def finalizeCoord (m : PMap TransientEntry) : PMap (Chromosome × Int × Int) :=
  fun k => (m k).map (fun p => (p.1, listMin p.2.1, listMax p.2.2))

/-- Function `file_to_dicts` on an in-memory table. -/
def file_to_dicts (rows : List RawRow) :
    Except PyErr (PMap String × PMap (Chromosome × Int × Int)) :=
  (ingest rows).map (fun p => (p.1, finalizeCoord p.2))

/-- The `WrongGeneName` exception payload: the `"gene"` entry of the
dict the source raises with. -/
structure WrongGeneName where
  gene : String
deriving DecidableEq

/-- The success dictionary returned by `hgfind`. -/
structure RnaInfo where
  chr_n : Chromosome
  start_coord : Int
  end_coord : Int
  official_name : String
deriving DecidableEq

/-- Lookup `hgfind` (lines 128-147), given the two finished dicts: uppercase
the query, resolve through both maps, raise `WrongGeneName` (whose
payload is the uppercased query) when either resolution fails. -/
def hgfind (name_to_official : PMap String) (official_to_coord : PMap (Chromosome × Int × Int))
    (gene : String) : Except WrongGeneName RnaInfo :=
  let g := pyUpper gene
  match name_to_official g with
  | none => .error ⟨g⟩
  | some off =>
    match official_to_coord off with
    | none => .error ⟨g⟩
    | some (c, s, e) => .ok ⟨c, s, e, off⟩

/-- End-to-end: ingest a table, then look a gene up. -/
def hgfindRows (rows : List RawRow) (gene : String) :
    Except PyErr (Except WrongGeneName RnaInfo) :=
  (file_to_dicts rows).map (fun p => hgfind p.1 p.2 gene)

/-! Query helpers over an ingestion result, used to state concrete facts. -/

/-- Error raised by ingesting `rows`, if any. -/
def ingErr (rows : List RawRow) : Option PyErr :=
  match ingest rows with
  | .ok _ => none
  | .error e => some e

/-- Value of `name_to_official` at `k` after ingesting `rows`. -/
def ingAlias (rows : List RawRow) (k : String) : Option String :=
  match ingest rows with
  | .ok p => p.1 k
  | .error _ => none

/-- Value of the transient `official_to_coord` at `k` after ingesting `rows`. -/
def ingCoord (rows : List RawRow) (k : String) : Option TransientEntry :=
  match ingest rows with
  | .ok p => p.2 k
  | .error _ => none

/-! Invariant vocabulary. -/

/-- Membership as a key of a dict. -/
def isKey {α : Type} (m : PMap α) (k : String) : Prop := ∃ v, m k = some v

/-- Alias-map closure: every alias points to itself or to a name that is
a key of the alias map or of the coordinate map. -/
def AliasInv (a : PMap String) (m : PMap TransientEntry) : Prop :=
  ∀ n c, a n = some c → c = n ∨ isKey a c ∨ isKey m c

/-! Concrete tables used as witnesses and counterexamples. -/

/-- Row: gene A with synonym X on chromosome 1. -/
def rowAX : RawRow := ⟨"10", "20", "A", "X", "", "", "1"⟩

/-- Row: gene B with synonym C and cross-reference X on chromosome 1. -/
def rowBCX : RawRow := ⟨"30", "40", "B", "C", "X", "", "1"⟩

/-- Row: gene D with synonym C and cross-reference E on chromosome 1. -/
def rowDCE : RawRow := ⟨"50", "60", "D", "C", "E", "", "1"⟩

/-- Two-row table where ingestion leaves alias C pointing at B while B
never receives coordinates. -/
def T4 : List RawRow := [rowAX, rowBCX]

/-- Three-row table extending `T4` with a row whose synonym C is known
but whose canonical name B has no coordinates. -/
def T5 : List RawRow := [rowAX, rowBCX, rowDCE]

/-- HNRNPC fixture: all rows on chromosome 14, minimum start 21209136,
maximum end 21269494. -/
def fixtureRows : List RawRow :=
  [⟨"21209136", "21230000", "HNRNPC", "", "", "", "14"⟩,
   ⟨"21215000", "21269494", "HNRNPC", "HNRPC", "", "", "14"⟩,
   ⟨"21210000", "21240000", "HNRNPC", "", "", "", "14"⟩]

/-- Row whose chromosome label "Z" fits none of the recognized label
patterns but still enters the length-2 branch. -/
def rowZ : RawRow := ⟨"1", "2", "G", "", "", "", "Z"⟩

/-- Row with a long scaffold label that contains no HSCHR marker. -/
def rowGL : RawRow := ⟨"9", "9", "GX", "", "", "", "GL000195.1"⟩

/-- Row whose label ends right after "HSCHR" plus one character. -/
def rowHschr9 : RawRow := ⟨"1", "2", "G", "", "", "", "HSCHR9"⟩

/-- Sample alias map: AUF1 points at HNRNPD. -/
def wAlias : PMap String := PMap.empty.insert "AUF1" "HNRNPD"

/-- Sample transient coordinate map: HNRNPD recorded on chromosome 4. -/
def wCoord : PMap TransientEntry :=
  PMap.empty.insert "HNRNPD" (⟨4⟩, [82352498], [82374503])

/-- Sample fact on chromosome 7 whose sole name AUF1 conflicts with
`wCoord`. -/
def wFact : Fact := ⟨"AUF1", ["AUF1"], ⟨7⟩, 100, 200⟩

/-- Sample fact on chromosome 7 resolving to HNRNPD, whose recorded
chromosome is 4. -/
def wFactHnrnpd : Fact := ⟨"HNRNPD", ["HNRNPD"], ⟨7⟩, 100, 200⟩

/-! General lemmas about the string model. -/

theorem charToNat_ofNat (n : Nat) (h : n.isValidChar) : (Char.ofNat n).toNat = n := by
  rw [Char.ofNat, dif_pos h]
  simp [Char.ofNatAux, Char.toNat, UInt32.toNat, BitVec.ofNatLt]

theorem pyCharUpper_idem (c : Char) : pyCharUpper (pyCharUpper c) = pyCharUpper c := by
  by_cases h : 97 ≤ c.toNat ∧ c.toNat ≤ 122
  · have h1 : pyCharUpper c = Char.ofNat (c.toNat - 32) := by rw [pyCharUpper, if_pos h]
    have h2 : (Char.ofNat (c.toNat - 32)).toNat = c.toNat - 32 :=
      charToNat_ofNat _ (Or.inl (by omega))
    rw [h1, pyCharUpper, h2]
    exact if_neg (by omega)
  · have h1 : pyCharUpper c = c := by rw [pyCharUpper, if_neg h]
    rw [h1, h1]

theorem mapUpper_idem (l : List Char) :
    (l.map pyCharUpper).map pyCharUpper = l.map pyCharUpper := by
  induction l with
  | nil => rfl
  | cons c t ih => simp only [List.map, ih, pyCharUpper_idem]

theorem pyUpper_idem (s : String) : pyUpper (pyUpper s) = pyUpper s :=
  congrArg String.mk (mapUpper_idem s.data)

/-! Lemmas about dicts and the aggregation step. -/

theorem isKey_insert {α : Type} (m : PMap α) (k q : String) (v : α) (h : isKey m q) :
    isKey (m.insert k v) q := by
  by_cases hq : q = k
  · exact ⟨v, by simp [PMap.insert, hq]⟩
  · obtain ⟨w, hw⟩ := h
    exact ⟨w, by simp [PMap.insert, hq, hw]⟩

theorem isKey_insert_self {α : Type} (m : PMap α) (k : String) (v : α) :
    isKey (m.insert k v) k :=
  ⟨v, by simp [PMap.insert]⟩

/-- An entry recorded on a chromosome other than the incoming row's is
never modified by the aggregation step. -/
theorem aggregate_keeps_other_chr (m : PMap TransientEntry) (off : String)
    (C : Chromosome) (s e : Int) (c : String) (pchr : Chromosome) (ss es : List Int)
    (h2 : m c = some (pchr, ss, es)) (h3 : pchr ≠ C) :
    aggregate m off C s e c = some (pchr, ss, es) := by
  unfold aggregate
  cases hoff : m off with
  | none =>
    by_cases hc : c = off
    · rw [hc] at h2; rw [h2] at hoff; exact absurd hoff (by simp)
    · simp [PMap.insert, hc, h2]
  | some p =>
    obtain ⟨p1, p2, p3⟩ := p
    by_cases hne : p1 ≠ C
    · simp only [if_pos hne]
      exact h2
    · simp only [if_neg hne]
      by_cases hc : c = off
      · rw [hc] at h2
        rw [h2] at hoff
        injection hoff with h4
        have hp : pchr = p1 := congrArg Prod.fst h4
        exact absurd (hp.trans (not_not.mp hne)) h3
      · simp [PMap.insert, hc, h2]

/-- Aggregation never removes a key. -/
theorem aggregate_isKey (m : PMap TransientEntry) (off : String) (C : Chromosome)
    (s e : Int) (q : String) (h : isKey m q) : isKey (aggregate m off C s e) q := by
  unfold aggregate
  cases hoff : m off with
  | none => exact isKey_insert _ _ _ _ h
  | some p =>
    obtain ⟨p1, p2, p3⟩ := p
    by_cases hne : p1 ≠ C
    · simpa only [if_pos hne] using h
    · simp only [if_neg hne]
      exact isKey_insert _ _ _ _ h

/-- C1. During ingestion, a candidate name `n` already aliased to a
canonical name `c` whose recorded chromosome differs from the fact's
chromosome `C` is re-pointed to itself, the running canonical name
becomes `n`, and processing the whole fact leaves the coordinate entry
of `c` untouched. -/
theorem alias_conflict_demotes
    (a : PMap String) (m : PMap TransientEntry) (C : Chromosome)
    (off n c : String) (pchr : Chromosome) (ss es : List Int)
    (h1 : a n = some c) (h2 : m c = some (pchr, ss, es)) (h3 : pchr ≠ C) :
    processName C m (a, off) n = (a.insert n n, n) ∧
    ∀ (a2 : PMap String) (f : Fact), f.chr_no = C →
      (processFact (a2, m) f).2 c = some (pchr, ss, es) := by
  constructor
  · simp [processName, h1, h2, h3]
  · intro a2 f hf
    show aggregate m (resolveFact a2 m f).2 f.chr_no f.start_coord f.end_coord c = _
    rw [hf]
    exact aggregate_keeps_other_chr m _ C _ _ c pchr ss es h2 h3

theorem alias_conflict_demotes_witness :
    processName ⟨7⟩ wCoord (wAlias, "AUF1") "AUF1" = (wAlias.insert "AUF1" "AUF1", "AUF1") ∧
    (processFact (wAlias, wCoord) wFact).2 "HNRNPD" = some (⟨4⟩, [82352498], [82374503]) := by
  have h := alias_conflict_demotes wAlias wCoord ⟨7⟩ "AUF1" "AUF1" "HNRNPD" ⟨4⟩
    [82352498] [82374503] rfl rfl (by decide)
  exact ⟨h.1, h.2 wAlias wFact rfl⟩

/-- C2. A fact whose resolved canonical name already has an entry on a
different chromosome is discarded whole: the coordinate map after the
fact is the coordinate map before it. -/
theorem conflicting_row_discarded
    (a : PMap String) (m : PMap TransientEntry) (f : Fact)
    (pchr : Chromosome) (ss es : List Int)
    (h1 : m ((resolveFact a m f).2) = some (pchr, ss, es)) (h2 : pchr ≠ f.chr_no) :
    processFact (a, m) f = ((resolveFact a m f).1, m) := by
  show ((resolveFact a m f).1, aggregate m (resolveFact a m f).2 _ _ _) = _
  simp only [aggregate, h1, if_pos h2]

theorem conflicting_row_discarded_witness :
    processFact (wAlias, wCoord) wFactHnrnpd =
      ((resolveFact wAlias wCoord wFactHnrnpd).1, wCoord) := by
  exact conflicting_row_discarded wAlias wCoord wFactHnrnpd ⟨4⟩
    [82352498] [82374503] rfl (by decide)

/-- C3. Finalization collapses every transient entry to
(chromosome, min of recorded starts, max of recorded ends); on the
HNRNPC fixture (all rows chromosome 14, min start 21209136, max end
21269494) the lookup returns exactly that span. -/
theorem span_is_min_max :
    (∀ (m : PMap TransientEntry) (k : String) (c : Chromosome) (ss es : List Int),
        m k = some (c, ss, es) → finalizeCoord m k = some (c, listMin ss, listMax es)) ∧
    hgfindRows fixtureRows "HNRNPC" = .ok (.ok ⟨⟨14⟩, 21209136, 21269494, "HNRNPC"⟩) := by
  constructor
  · intro m k c ss es h
    simp [finalizeCoord, h]
  · rfl

theorem span_is_min_max_witness :
    finalizeCoord (PMap.empty.insert "G" (⟨1⟩, [5, 3], [7, 9])) "G" = some (⟨1⟩, 3, 9) := by
  have h := span_is_min_max.1 (PMap.empty.insert "G" (⟨1⟩, [5, 3], [7, 9])) "G" ⟨1⟩
    [5, 3] [7, 9] rfl
  exact h

/-- C7, counterexample. Looking up "gsjfg" fails, but the error payload
is the uppercased query "GSJFG", not the original query string. -/
theorem lookup_error_payload_cex :
    hgfindRows [] "gsjfg" = .ok (.error ⟨"GSJFG"⟩) ∧
    WrongGeneName.mk "GSJFG" ≠ WrongGeneName.mk "gsjfg" :=
  ⟨rfl, by decide⟩

/-- C7, amended. Lookup fails exactly when the uppercased query is not
an alias key or its canonical name has no finalized coordinates, and
every failure carries the uppercased query. -/
theorem lookup_fails_iff (a : PMap String) (m : PMap (Chromosome × Int × Int))
    (q : String) :
    ((∃ err, hgfind a m q = .error err) ↔
      (a (pyUpper q) = none ∨ ∃ off, a (pyUpper q) = some off ∧ m off = none)) ∧
    ∀ err, hgfind a m q = .error err → err = ⟨pyUpper q⟩ := by
  unfold hgfind
  cases ha : a (pyUpper q) with
  | none => simp [ha]
  | some off =>
    cases hm : m off with
    | none => simp [ha, hm]
    | some p =>
      obtain ⟨c, s, e⟩ := p
      simp [ha, hm]

theorem lookup_fails_iff_witness :
    (∃ err, hgfind PMap.empty PMap.empty "gsjfg" = .error err) ∧
    WrongGeneName.mk "GSJFG" = WrongGeneName.mk (pyUpper "gsjfg") := by
  have h := lookup_fails_iff PMap.empty PMap.empty "gsjfg"
  exact ⟨h.1.mpr (Or.inl rfl), h.2 ⟨"GSJFG"⟩ rfl⟩

/-- C8. Lookup is case-insensitive: a query and its uppercased form give
identical results, success or failure. -/
theorem lookup_case_insensitive (a : PMap String) (m : PMap (Chromosome × Int × Int))
    (q : String) :
    hgfind a m q = hgfind a m (pyUpper q) := by
  unfold hgfind
  rw [pyUpper_idem]

/-- C9, counterexample. The raw string "MT" is accepted by construction,
but the constructed chromosome does not compare equal to "MT": its
string form is "M", and string equality compares against that. -/
theorem chrom_eq_raw_cex :
    Chromosome.init (.str "MT") = .ok ⟨25⟩ ∧ Chromosome.eqStr ⟨25⟩ "MT" = false :=
  ⟨rfl, rfl⟩

/-- C9, amended. A chromosome built from an accepted integer compares
equal to that integer; equality against a raw string holds exactly when
the string is the canonical string form; cross-representation equality
holds (the chromosome built from "X" equals the integer 23). -/
theorem chrom_eq_raw_amended :
    (∀ n : Int, 1 ≤ n → n ≤ 22 →
      ∃ c, Chromosome.init (.int n) = .ok c ∧ c.eqInt n = true) ∧
    (∀ (s : String) (c : Chromosome), Chromosome.init (.str s) = .ok c →
      (c.eqStr s = true ↔ c.str = s)) ∧
    (∃ c, Chromosome.init (.str "X") = .ok c ∧ c.eqInt 23 = true) := by
  refine ⟨?_, ?_, ⟨⟨23⟩, rfl, rfl⟩⟩
  · intro n h1 h2
    refine ⟨⟨n.toNat⟩, ?_, ?_⟩
    · simp [Chromosome.init, h1, h2]
    · have hn : (n.toNat : Int) = n := Int.toNat_of_nonneg (by omega)
      simp [Chromosome.eqInt, hn]
  · intro s c _
    simp [Chromosome.eqStr]

theorem chrom_eq_raw_amended_witness :
    (∃ c, Chromosome.init (.int 5) = .ok c ∧ c.eqInt 5 = true) ∧
    (Chromosome.eqStr ⟨23⟩ "x" = true ↔ Chromosome.str ⟨23⟩ = "x") := by
  have h := chrom_eq_raw_amended
  exact ⟨h.1 5 (by decide) (by decide), h.2.1 "x" ⟨23⟩ rfl⟩

/-- C5, counterexample. In table `T5`, the third row's synonym C is
already aliased to B, and B has no coordinates after the first two rows;
the claim therefore predicts the running guess stays at the initial
guess D and that the new name E is bound to D. The code instead sets
the running guess to B, and binds E to B. -/
theorem known_alias_updates_guess_cex :
    ingErr T5 = none ∧
    ingAlias (T5.take 2) "C" = some "B" ∧
    ingCoord (T5.take 2) "B" = none ∧
    ingAlias (T5.take 2) "D" = none ∧
    ingAlias (T5.take 2) "E" = none ∧
    ingAlias T5 "E" = some "B" ∧
    ("B" : String) ≠ "D" :=
  ⟨rfl, rfl, rfl, rfl, rfl, rfl, by decide⟩

/-- C5, amended. A new name is bound to the current running guess, and
an already-known name whose canonical has no coordinates leaves the
alias map unchanged but sets the running guess to that canonical value. -/
theorem processName_new_and_nocoord (C : Chromosome) (m : PMap TransientEntry)
    (a : PMap String) (off n : String) :
    (a n = none → processName C m (a, off) n = (a.insert n off, off)) ∧
    (∀ c, a n = some c → m c = none → processName C m (a, off) n = (a, c)) := by
  constructor
  · intro h
    simp [processName, h]
  · intro c h1 h2
    simp [processName, h1, h2]

theorem processName_new_and_nocoord_witness :
    processName ⟨1⟩ PMap.empty (wAlias, "OFF") "NEW" =
      (wAlias.insert "NEW" "OFF", "OFF") ∧
    processName ⟨1⟩ PMap.empty (wAlias, "OFF") "AUF1" = (wAlias, "HNRNPD") := by
  refine ⟨?_, ?_⟩
  · exact (processName_new_and_nocoord ⟨1⟩ PMap.empty wAlias "OFF" "NEW").1 rfl
  · exact (processName_new_and_nocoord ⟨1⟩ PMap.empty wAlias "OFF" "AUF1").2 "HNRNPD" rfl rfl

/-- C6, counterexample. The label "Z" matches none of the claim's
recognized patterns (it is not "X"/"Y"/"MT", cannot be parsed as an
integer, and contains no "HSCHR"), yet ingestion raises a value error
and aborts instead of skipping the row. -/
theorem unrecognized_label_cex :
    pyStrip "Z" = "Z" ∧
    ¬(("Z" : String) = "X" ∨ ("Z" : String) = "Y" ∨ ("Z" : String) = "MT") ∧
    pyInt "Z" = none ∧
    hschrIdx "Z" = none ∧
    ingest [rowAX, rowZ] = .error .valueError :=
  ⟨rfl, by decide, rfl, rfl, rfl⟩

/-- C6, amended. A row whose stripped label is not exactly "X"/"Y"/"MT",
is longer than 2 characters, and contains no "HSCHR" is skipped without
error and leaves ingestion of the remaining table unchanged. -/
theorem unmatched_long_label_skipped (row : RawRow)
    (h1 : ¬(pyStrip row.str_chr_no = "X" ∨ pyStrip row.str_chr_no = "Y" ∨
        pyStrip row.str_chr_no = "MT"))
    (h2 : ¬((pyStrip row.str_chr_no).length ≤ 2))
    (h3 : hschrIdx (pyStrip row.str_chr_no) = none) :
    parseRow row = .ok none ∧
    ∀ (pre post : List RawRow) (st : PMap String × PMap TransientEntry),
      ingestFrom st (pre ++ row :: post) = ingestFrom st (pre ++ post) := by
  have hlab : parseChrLabel (pyStrip row.str_chr_no) = .ok none := by
    rw [parseChrLabel, if_neg h1, if_neg h2, h3]
  have hrow : parseRow row = .ok none := by
    rw [parseRow]
    rw [hlab]
  refine ⟨hrow, ?_⟩
  intro pre post
  induction pre with
  | nil =>
    intro st
    show ingestFrom st (row :: post) = ingestFrom st post
    rw [ingestFrom, hrow]
  | cons r rest ih =>
    intro st
    show ingestFrom st (r :: (rest ++ row :: post)) = ingestFrom st (r :: (rest ++ post))
    rw [ingestFrom, ingestFrom]
    cases parseRow r with
    | error e => rfl
    | ok o =>
      cases o with
      | none => exact ih _
      | some f => exact ih _

theorem unmatched_long_label_skipped_witness :
    parseRow rowGL = .ok none ∧
    ingestFrom (PMap.empty, PMap.empty) ([rowAX] ++ rowGL :: [rowBCX]) =
      ingestFrom (PMap.empty, PMap.empty) ([rowAX] ++ [rowBCX]) := by
  have h := unmatched_long_label_skipped rowGL (by decide) (by decide) (by decide)
  exact ⟨h.1, h.2 [rowAX] [rowBCX] _⟩

/-! Alias-map closure invariant (for C4). -/

theorem aliasInv_insert_of (a : PMap String) (m : PMap TransientEntry) (k v : String)
    (hInv : AliasInv a m) (hv : v = k ∨ isKey (a.insert k v) v ∨ isKey m v) :
    AliasInv (a.insert k v) m := by
  intro n2 c2 h2
  by_cases hn2 : n2 = k
  · have hc2 : c2 = v := by
      have : a.insert k v n2 = some v := by simp [PMap.insert, hn2]
      rw [h2] at this
      injection this
    subst hc2
    rcases hv with h | h | h
    · left; rw [h, hn2]
    · exact Or.inr (Or.inl h)
    · exact Or.inr (Or.inr h)
  · have h2b : a n2 = some c2 := by
      have : a.insert k v n2 = a n2 := by simp [PMap.insert, hn2]
      rw [← this, h2]
    rcases hInv n2 c2 h2b with h | h | h
    · exact Or.inl h
    · exact Or.inr (Or.inl (isKey_insert _ _ _ _ h))
    · exact Or.inr (Or.inr h)

/-- One alias-loop step preserves the closure invariant, keeps the
running official name a key of one of the two maps, and never removes
an alias key. -/
theorem processName_inv (C : Chromosome) (m : PMap TransientEntry)
    (a : PMap String) (off n : String)
    (hInv : AliasInv a m) (hoff : isKey a off ∨ isKey m off) :
    AliasInv (processName C m (a, off) n).1 m ∧
    (isKey (processName C m (a, off) n).1 (processName C m (a, off) n).2 ∨
      isKey m (processName C m (a, off) n).2) ∧
    (∀ q, isKey a q → isKey (processName C m (a, off) n).1 q) := by
  cases han : a n with
  | some c =>
    have hkc : isKey a c ∨ isKey m c := by
      rcases hInv n c han with h | h | h
      · exact Or.inl ⟨c, h ▸ han⟩
      · exact Or.inl h
      · exact Or.inr h
    cases hmc : m c with
    | none =>
      have hres : processName C m (a, off) n = (a, c) := by
        simp [processName, han, hmc]
      rw [hres]
      exact ⟨hInv, hkc, fun q hq => hq⟩
    | some p =>
      obtain ⟨p1, p2, p3⟩ := p
      by_cases hne : p1 ≠ C
      · have hres : processName C m (a, off) n = (a.insert n n, n) := by
          simp [processName, han, hmc, hne]
        rw [hres]
        exact ⟨aliasInv_insert_of a m n n hInv (Or.inl rfl),
          Or.inl (isKey_insert_self a n n),
          fun q hq => isKey_insert _ _ _ _ hq⟩
      · have hres : processName C m (a, off) n = (a, c) := by
          simp [processName, han, hmc, hne]
        rw [hres]
        exact ⟨hInv, hkc, fun q hq => hq⟩
  | none =>
    have hres : processName C m (a, off) n = (a.insert n off, off) := by
      simp [processName, han]
    rw [hres]
    have hoff2 : isKey (a.insert n off) off ∨ isKey m off := by
      rcases hoff with h | h
      · exact Or.inl (isKey_insert _ _ _ _ h)
      · exact Or.inr h
    exact ⟨aliasInv_insert_of a m n off hInv (Or.inr hoff2), hoff2,
      fun q hq => isKey_insert _ _ _ _ hq⟩

/-- The alias loop over a name list preserves the closure invariant. -/
theorem resolveLoop_inv (C : Chromosome) (m : PMap TransientEntry)
    (names : List String) :
    ∀ st : PMap String × String, AliasInv st.1 m → (isKey st.1 st.2 ∨ isKey m st.2) →
    AliasInv (names.foldl (processName C m) st).1 m ∧
    (isKey (names.foldl (processName C m) st).1 (names.foldl (processName C m) st).2 ∨
      isKey m (names.foldl (processName C m) st).2) ∧
    (∀ q, isKey st.1 q → isKey (names.foldl (processName C m) st).1 q) := by
  induction names with
  | nil =>
    intro st h1 h2
    exact ⟨h1, h2, fun q hq => hq⟩
  | cons n rest ih =>
    intro st h1 h2
    obtain ⟨a, off⟩ := st
    rw [List.foldl_cons]
    obtain ⟨g1, g2, g3⟩ := processName_inv C m a off n h1 h2
    obtain ⟨k1, k2, k3⟩ := ih (processName C m (a, off) n) g1 g2
    exact ⟨k1, k2, fun q hq => k3 q (g3 q hq)⟩

/-- When the gene-symbol field is nonempty it is the head of the
candidate-name list. -/
theorem rowNames_head (row : RawRow) (hg : pyStrip row.gene_name ≠ "") :
    ∃ rest, rowNames row = pyStrip row.gene_name :: rest := by
  rw [rowNames, List.filter_cons, if_pos (by simpa using hg)]
  exact ⟨_, rfl⟩

/-- A successfully parsed fact records the stripped gene-symbol field
and the filtered name list. -/
theorem parseRow_shape (row : RawRow) (f : Fact)
    (h : parseRow row = .ok (some f)) (hg : pyStrip row.gene_name ≠ "") :
    f.gene_name ≠ "" ∧ ∃ rest, f.names = f.gene_name :: rest := by
  rw [parseRow] at h
  split at h
  · exact absurd h (by simp)
  · exact absurd h (by simp)
  · split at h
    · injection h with h1
      injection h1 with h2
      subst h2
      exact ⟨hg, rowNames_head row hg⟩
    · exact absurd h (by simp)

/-- Processing one fact with a nonempty gene symbol preserves the
closure invariant. -/
theorem processFact_inv (a : PMap String) (m : PMap TransientEntry) (f : Fact)
    (hInv : AliasInv a m) (_hg : f.gene_name ≠ "")
    (hhead : ∃ rest, f.names = f.gene_name :: rest) :
    AliasInv (processFact (a, m) f).1 (processFact (a, m) f).2 := by
  obtain ⟨rest, hr⟩ := hhead
  have hres : AliasInv (resolveFact a m f).1 m := by
    rw [resolveFact]
    cases hga : a f.gene_name with
    | some c0 =>
      have hkc : isKey a c0 ∨ isKey m c0 := by
        rcases hInv f.gene_name c0 hga with h | h | h
        · exact Or.inl ⟨c0, h ▸ hga⟩
        · exact Or.inl h
        · exact Or.inr h
      exact (resolveLoop_inv f.chr_no m f.names (a, c0) hInv hkc).1
    | none =>
      show AliasInv (List.foldl (processName f.chr_no m) (a, f.gene_name) f.names).1 m
      rw [hr, List.foldl_cons]
      have hstep : processName f.chr_no m (a, f.gene_name) f.gene_name
          = (a.insert f.gene_name f.gene_name, f.gene_name) := by
        simp [processName, hga]
      rw [hstep]
      have hInv2 : AliasInv (a.insert f.gene_name f.gene_name) m :=
        aliasInv_insert_of a m f.gene_name f.gene_name hInv (Or.inl rfl)
      exact (resolveLoop_inv f.chr_no m rest
        (a.insert f.gene_name f.gene_name, f.gene_name) hInv2
        (Or.inl (isKey_insert_self _ _ _))).1
  show AliasInv (resolveFact a m f).1
    (aggregate m (resolveFact a m f).2 f.chr_no f.start_coord f.end_coord)
  intro n c h
  rcases hres n c h with hh | hh | hh
  · exact Or.inl hh
  · exact Or.inr (Or.inl hh)
  · exact Or.inr (Or.inr (aggregate_isKey m _ _ _ _ c hh))

/-- The row loop preserves the closure invariant when every row's
gene-symbol field is nonempty. -/
theorem ingestFrom_inv (rows : List RawRow) :
    ∀ st : PMap String × PMap TransientEntry,
    (∀ r ∈ rows, pyStrip r.gene_name ≠ "") →
    AliasInv st.1 st.2 →
    ∀ p, ingestFrom st rows = .ok p → AliasInv p.1 p.2 := by
  induction rows with
  | nil =>
    intro st hr hInv p h
    rw [ingestFrom] at h
    injection h with h1
    subst h1
    exact hInv
  | cons row rest ih =>
    intro st hr hInv p h
    rw [ingestFrom] at h
    cases hp : parseRow row with
    | error e =>
      rw [hp] at h
      exact absurd h (by simp)
    | ok o =>
      rw [hp] at h
      cases o with
      | none =>
        exact ih st (fun r h2 => hr r (by simp [h2])) hInv p h
      | some f =>
        have hshape := parseRow_shape row f hp (hr row (by simp))
        have hInv2 : AliasInv (processFact st f).1 (processFact st f).2 := by
          obtain ⟨st1, st2⟩ := st
          exact processFact_inv st1 st2 f hInv hshape.1 hshape.2
        exact ih (processFact st f) (fun r h2 => hr r (by simp [h2])) hInv2 p h

/-- C4, counterexample. After ingesting `T4`, alias C points at B, B is
a different name from C, and B has no coordinates recorded. -/
theorem alias_canonical_key_cex :
    ingErr T4 = none ∧
    ingAlias T4 "C" = some "B" ∧
    ingCoord T4 "B" = none ∧
    ("B" : String) ≠ "C" :=
  ⟨rfl, rfl, rfl, by decide⟩

/-- C4, amended. After ingesting a table in which every row has a
nonempty gene-symbol field, every alias key maps to itself or to a name
that is a key of the alias map or of the coordinate map. -/
theorem alias_canonical_key_amended (rows : List RawRow)
    (hrows : ∀ r ∈ rows, pyStrip r.gene_name ≠ "")
    (a : PMap String) (m : PMap TransientEntry)
    (h : ingest rows = .ok (a, m)) :
    AliasInv a m := by
  have base : AliasInv (PMap.empty : PMap String) PMap.empty := by
    intro n c hc
    exact absurd hc (by simp [PMap.empty])
  exact ingestFrom_inv rows (PMap.empty, PMap.empty) hrows base (a, m) h

theorem alias_canonical_key_amended_witness :
    ∃ a m, ingest T4 = .ok (a, m) ∧ AliasInv a m := by
  refine ⟨_, _, rfl, ?_⟩
  exact alias_canonical_key_amended T4 (by decide) _ _ rfl

/-- C10. A chromosome label ending right after "HSCHR" plus a single
character (here "HSCHR9") drives the scaffold heuristic to index the
second character of a one-character remainder: ingestion raises an
index error and aborts instead of skipping the row. -/
theorem hschr_short_remainder_aborts :
    hschrIdx "HSCHR9" = some 0 ∧
    parseChrLabel "HSCHR9" = .error .indexError ∧
    ingest [rowAX, rowHschr9] = .error .indexError :=
  ⟨rfl, rfl, rfl⟩

end HgfindModel
